import Mathlib

/-!
Verification development for the reading-list site generator (`magefile.go`).

The Go program is shallowly embedded: article records, month grouping,
sorting, HTML rendering and the generation pipeline are translated into
executable Lean definitions, and the behavioural claims about the program
are proved or refuted against this embedding.

Modelling conventions:

* Go's `time.Time` is modelled by `GoTime` (year/month/day plus one field
  for the smaller units); `Time.After` is the lexicographic strict order.
* Go's `map[time.Time]*entryGroup` is modelled by an association list in
  key-insertion order; iteration order of a Go map is unspecified, so where
  it matters (claim C7) the development quantifies over all permutations
  of that list.
* `sort.Sort` from the Go standard library is modelled twice: at the level
  of its documented contract ("sorts data in ascending order as determined
  by the Less method", no stability promised) by `List.insertionSort`, and
  at the level of its actual implementation (the pattern-defeating
  quicksort of Go ≥ 1.19, `sort/zsortinterface.go`) by `GoSort.sortGo`,
  which is used to analyse tie-breaking behaviour.
* The `daz` HTML library escapes every plain-string child with
  `html.EscapeString` and inserts `daz.UnsafeContent` verbatim; attributes
  are rendered in sorted key order, and an element whose rendered content
  is empty is emitted self-closing (`<el attrs/>`, as for `<br/>` and
  `<img …/>`).  Call sites whose content always starts with a literal
  (headers, `<summary>`, `<li>`, the description `<div>`s, `<i>`) are
  modelled with the open/close form directly; the anchor, the `<ul>` and
  the top-level `<div>` can receive empty content and carry the check.
  `html.EscapeString` replaces the five
  characters `& ' < > "` by `&amp; &#39; &lt; &gt; &#34;`.
* File-system and template effects of `GenerateSite` are modelled by an
  explicit environment (`GenEnv`) recording the outcome of each external
  call, and a trace of attempted file-system operations.
-/

/-- Model of Go's `time.Time` as used by the program.  The program reads a
time's year, month and day (`Year()`, `Month()`, `Format`) and compares
instants with `After`; all times in play are normalised UTC calendar
times, so a time is modelled as a year (Go `int`), month, day, and a
single `tod` field bundling the smaller units (hour/minute/second/
nanosecond), which the program always sets to zero for the times it
builds itself.  Go's zero `time.Time` is January 1 of year 1, UTC:
`⟨1, 1, 1, 0⟩`. -/
structure GoTime where
  year : Int
  month : Nat
  day : Nat
  tod : Nat
  deriving DecidableEq, Repr, Inhabited

/-- Go's zero `time.Time` (the value of an unset `Date` field): January 1
of year 1, UTC.  Note the year is 1, not 0. -/
def goZeroTime : GoTime := ⟨1, 1, 1, 0⟩

/-- `a.After(b)`: the instant `a` is strictly later than the instant `b`.
For normalised UTC times this is the lexicographic order on
(year, month, day, time-of-day). -/
def GoTime.after (a b : GoTime) : Prop :=
  b.year < a.year ∨
    (b.year = a.year ∧
      (b.month < a.month ∨
        (b.month = a.month ∧
          (b.day < a.day ∨ (b.day = a.day ∧ b.tod < a.tod)))))

instance (a b : GoTime) : Decidable (GoTime.after a b) :=
  inferInstanceAs (Decidable (b.year < a.year ∨
    (b.year = a.year ∧
      (b.month < a.month ∨
        (b.month = a.month ∧
          (b.day < a.day ∨ (b.day = a.day ∧ b.tod < a.tod)))))))

/-- `magefile.go:21`: one row of `readingList.csv`. -/
structure readingListEntry where
  URL : String
  Title : String
  Description : String
  Image : String
  Date : GoTime
  deriving DecidableEq, Repr, Inhabited

/-- `magefile.go:74`: a month group (`entryGroup`), keyed by its
first-of-month date. -/
structure entryGroup where
  Date : GoTime
  Entries : List readingListEntry
  deriving DecidableEq, Repr, Inhabited

/-- `magefile.go:111`: `time.Date(entry.Date.Year(), entry.Date.Month(),
1, 0, 0, 0, 0, time.UTC)` — the month key of a date: same year and month,
day 1, time of day zeroed. -/
def monthKey (t : GoTime) : GoTime := ⟨t.year, t.month, 1, 0⟩

/-- `entrySlice.Less i j` is `e[i].Date.After(e[j].Date)`
(`magefile.go:99`); sorting ascending with that `Less` leaves adjacent
elements `a` before `b` exactly when `¬ b.Date.After(a.Date)`, i.e. when
`a.Date ≥ b.Date`.  `entryBefore a b` is that non-strict "may come
before" order on entries. -/
def entryBefore (a b : readingListEntry) : Prop := ¬ GoTime.after b.Date a.Date

instance : DecidableRel entryBefore :=
  fun a b => inferInstanceAs (Decidable (¬ GoTime.after b.Date a.Date))

/-- `entryGroupSlice.Less i j` is `e[i].Date.After(e[j].Date)`
(`magefile.go:85`); `groupBefore` is the corresponding non-strict order
on groups. -/
def groupBefore (a b : entryGroup) : Prop := ¬ GoTime.after b.Date a.Date

instance : DecidableRel groupBefore :=
  fun a b => inferInstanceAs (Decidable (¬ GoTime.after b.Date a.Date))

/-- The strict "comes strictly earlier" order on groups: `a`'s key date is
strictly after `b`'s. -/
def groupAfterStrict (a b : entryGroup) : Prop := GoTime.after a.Date b.Date

instance : DecidableRel groupAfterStrict :=
  fun a b => inferInstanceAs (Decidable (GoTime.after a.Date b.Date))

/-- Contract-level model of `sort.Sort(group.Entries)` (`magefile.go:122`).
`sort.Sort`'s documented postcondition is that the data is sorted
ascending as determined by `Less`; no tie-breaking behaviour is
documented.  The contract is realised here by insertion sort (the
implementation-level model is `GoSort.sortGo` below). -/
def sortEntries (l : List readingListEntry) : List readingListEntry :=
  List.insertionSort entryBefore l

/-- Contract-level model of `sort.Sort(o)` (`magefile.go:125`) on the
group slice; see `sortEntries`. -/
def sortGroups (l : List entryGroup) : List entryGroup :=
  List.insertionSort groupBefore l

/-- One step of `magefile.go:110-118`: append `e` to the bucket keyed `k`
of the association list modelling `groupMap`, creating the bucket (with
`Date` set to the key) on first use. -/
def insertGrouped (gs : List entryGroup) (k : GoTime) (e : readingListEntry) :
    List entryGroup :=
  match gs with
  | [] => [⟨k, [e]⟩]
  | g :: rest =>
    if g.Date = k then ⟨g.Date, g.Entries ++ [e]⟩ :: rest
    else g :: insertGrouped rest k e

/-- `magefile.go:108-118`: build `groupMap` by scanning the entries in
input order; the association list keeps buckets in key-first-occurrence
order, and each bucket keeps its entries in input order. -/
def groupMapOf (entries : List readingListEntry) : List entryGroup :=
  entries.foldl (fun gs e => insertGrouped gs (monthKey e.Date) e) []

/-- `magefile.go:120-125`, starting from the bucket list in some
iteration order: sort each group's entries, then sort the group list. -/
def finishGroups (gs : List entryGroup) : List entryGroup :=
  sortGroups (gs.map fun g => ⟨g.Date, sortEntries g.Entries⟩)

/-- `magefile.go:107-128`: `groupEntriesByMonth`, with the buckets
iterated in their canonical (key-first-occurrence) order. -/
def groupEntriesByMonth (entries : List readingListEntry) : List entryGroup :=
  finishGroups (groupMapOf entries)

/-- The character expansion of Go's `html.EscapeString`: `&`, `'`, `<`,
`>`, `"` become `&amp;`, `&#39;`, `&lt;`, `&gt;`, `&#34;`; every other
character is kept. -/
def escapeChars (c : Char) : List Char :=
  if c = '&' then "&amp;".data
  else if c = '\x27' then "&#39;".data
  else if c = '<' then "&lt;".data
  else if c = '>' then "&gt;".data
  else if c = '"' then "&#34;".data
  else [c]

/-- Go's `html.EscapeString` on a character list. -/
def escapeList (l : List Char) : List Char := l.flatMap escapeChars

/-- Go's `html.EscapeString`, applied by `daz` to every plain-string
child of an element. -/
def escapeString (s : String) : String := ⟨escapeList s.data⟩

/-- Zero-pad a numeral string to the given width. -/
def padZeros (w : Nat) (s : String) : String :=
  ⟨List.replicate (w - s.length) '0'⟩ ++ s

/-- The year as `time.Format` renders it for layout `2006` (width 4,
zero padded, `-` sign for negative years). -/
def formatYear (n : Int) : String :=
  if n < 0 then "-" ++ padZeros 4 (toString n.natAbs) else padZeros 4 (toString n.toNat)

/-- A two-digit zero-padded field of `time.Format`. -/
def pad2 (n : Nat) : String := padZeros 2 (toString n)

/-- `t.Format(dateFormat)` with `dateFormat = "2006-01-02"`
(`magefile.go:19`). -/
def formatDate (t : GoTime) : String :=
  formatYear t.year ++ "-" ++ pad2 t.month ++ "-" ++ pad2 t.day

/-- `time.Month.String()`: the English month name, or Go's
`%!Month(n)` form for an out-of-range month number. -/
def monthName (m : Nat) : String :=
  if m = 1 then "January"
  else if m = 2 then "February"
  else if m = 3 then "March"
  else if m = 4 then "April"
  else if m = 5 then "May"
  else if m = 6 then "June"
  else if m = 7 then "July"
  else if m = 8 then "August"
  else if m = 9 then "September"
  else if m = 10 then "October"
  else if m = 11 then "November"
  else if m = 12 then "December"
  else "%!Month(" ++ toString m ++ ")"

/-- `magefile.go:30-39`: `renderAnchor` — an `<a>` element whose `href`
and `rel` (and, for `newTab`, `target`) attributes come from the
arguments and whose text child is escaped by `daz`.  Attributes are
rendered in sorted key order; when the escaped text is empty the element
self-closes, as `daz.H` does for any empty content. -/
def renderAnchor (text url : String) (newTab : Bool) : String :=
  if escapeString text = "" then
    "<a href=\"" ++ url ++ "\" rel=\"noopener\"" ++
      (if newTab then " target=\"_blank\"" else "") ++ "/>"
  else
    "<a href=\"" ++ url ++ "\" rel=\"noopener\"" ++
      (if newTab then " target=\"_blank\"" else "") ++ ">" ++
      escapeString text ++ "</a>"

/-- `magefile.go:41-50`: `renderUnsafeAnchor` — as `renderAnchor` but the
text child is inserted raw (`daz.UnsafeContent`); empty raw text
self-closes the element. -/
def renderUnsafeAnchor (text url : String) (newTab : Bool) : String :=
  if text = "" then
    "<a href=\"" ++ url ++ "\" rel=\"noopener\"" ++
      (if newTab then " target=\"_blank\"" else "") ++ "/>"
  else
    "<a href=\"" ++ url ++ "\" rel=\"noopener\"" ++
      (if newTab then " target=\"_blank\"" else "") ++ ">" ++
      text ++ "</a>"

/-- `magefile.go:141-164`: the loop body of `makeListHTML` — one `<li>`
for one article: a `<details>` whose `<summary>` holds the title anchor
and the escaped `" - " ++ date` text, and whose body `<div>` (CSS class
`description`) holds the `Description:` line (the description escaped,
or the placeholder `<none>`, itself escaped, when empty) and, when an
image URL is present, the `Image:` line with the lazy-loaded image. -/
def renderEntryLi (article : readingListEntry) : String :=
  let titleLine := "<summary>" ++ renderAnchor article.Title article.URL false ++
    escapeString (" - " ++ formatDate article.Date) ++ "</summary>"
  let descriptionContent :=
    if article.Description ≠ "" then article.Description else "<none>"
  let descDiv := "<div>" ++ escapeString "Description:" ++
    "<i>" ++ escapeString descriptionContent ++ "</i>" ++ "</div>"
  let imgDiv :=
    if article.Image ≠ "" then
      "<div>" ++ escapeString "Image:" ++ "<br/>" ++
        "<img loading=\"lazy\" src=\"" ++ article.Image ++
        "\" style=\"max-width: 256px;\"/>" ++ "</div>"
    else ""
  "<li>" ++ "<details>" ++ titleLine ++
    "<div class=\"description\">" ++ descDiv ++ imgDiv ++ "</div>" ++
    "</details>" ++ "</li>"

/-- `magefile.go:136-167`: one group's part of the listing — an `<h2>`
header `"<month name> <year>"` (escaped, always non-empty since it holds
the separating space) followed by the `<ul>` of the group's entries;
`daz.H("ul", entries)` self-closes when it holds no entries. -/
def renderGroup (group : entryGroup) : String :=
  let items := String.join (group.Entries.map renderEntryLi)
  "<h2>" ++ escapeString (monthName group.Date.month ++ " " ++ toString group.Date.year) ++
    "</h2>" ++ (if items = "" then "<ul/>" else "<ul>" ++ items ++ "</ul>")

/-- `magefile.go:131-171`: `makeListHTML` — the listing fragment: all
group parts wrapped in one `<div>`; for zero groups the wrapper's
content is empty and `daz.H` renders it self-closing, `<div/>`. -/
def makeListHTML (groups : List entryGroup) : String :=
  let parts := String.join (groups.map renderGroup)
  if parts = "" then "<div/>" else "<div>" ++ parts ++ "</div>"

/-- `magefile.go:196-212`: the page heading fragment built in
`GenerateSite`: an `<h1>` with the (escaped) page title and an
`information` paragraph whose body is raw trusted HTML
(`daz.UnsafeContent` around `fmt.Sprintf`), including the article count,
the generation date and the credit link. -/
def headFragment (numArticles : Nat) (now : GoTime) : String :=
  "<div class=\"heading\">" ++
    "<h1>" ++ escapeString "akp\x27s reading list" ++ "</h1>" ++
    "<p class=\"information\">" ++
    "A mostly complete list of articles I\x27ve read<br>There are currently " ++
    toString numArticles ++ " entries in the list<br>Last modified " ++
    formatDate now ++ "<br>Repo: " ++
    renderUnsafeAnchor "<code>codemicro/readingList</code>"
      "https://github.com/codemicro/readingList" false ++
    "</p></div>"

/-- The data struct passed to `tpl.Execute` (`magefile.go:64-69`). -/
structure TmplData where
  Title : String
  Content : String
  PageTitleBar : String
  ExtraHeadContent : String
  deriving DecidableEq, Repr, Inhabited

/-- A file-system operation attempted by `GenerateSite`. -/
inductive FsOp where
  | mkdir : String → FsOp
  | writeFile : String → String → FsOp
  deriving DecidableEq, Repr

/-- The outcomes of the external calls `GenerateSite` makes, fixed for
one run: the result of `ioutil.ReadFile("readingList.csv")`, the
behaviour of `csvutil.Unmarshal` on the file contents (covering CSV and
date parse errors), the result of parsing the embedded page template,
the behaviour of `tpl.Execute` (the text it writes to the buffer before
returning, and its error, which the code discards), the current time,
and the results of `os.Mkdir` / `ioutil.WriteFile`. -/
structure GenEnv where
  readFileRes : Except String String
  unmarshalRes : String → Except String (List readingListEntry)
  tmplParseRes : Except String String
  tmplExecRes : String → TmplData → String × Option String
  now : GoTime
  mkdirRes : Option String
  writeFileRes : Option String

/-- `magefile.go:56-72`: `renderHTMLPage` — parse the embedded template
(fail on a parse error), then execute it into a buffer; the `Execute`
error is discarded and whatever was written to the buffer is returned. -/
def renderHTMLPage (env : GenEnv)
    (title titleBar pageContent extraHeadeContent : String) :
    Except String String :=
  match env.tmplParseRes with
  | .error e => .error e
  | .ok tpl =>
    .ok (env.tmplExecRes tpl
      ⟨title, pageContent, titleBar, extraHeadeContent⟩).1

/-- `magefile.go:173-224`: `GenerateSite` — read the CSV file, unmarshal
it, group and render, assemble the page, then create `.site` (its error
is ignored) and write `.site/index.html`.  The result pairs the returned
error value with the trace of attempted file-system writes. -/
def GenerateSite (env : GenEnv) : Except String Unit × List FsOp :=
  match env.readFileRes with
  | .error e => (.error e, [])
  | .ok fcont =>
    match env.unmarshalRes fcont with
    | .error e => (.error e, [])
    | .ok entries =>
      let numArticles := entries.length
      let groupedEntries := groupEntriesByMonth entries
      let pageTitle := "akp\x27s reading list"
      let head := headFragment numArticles env.now
      let listingHTML := makeListHTML groupedEntries
      match renderHTMLPage env pageTitle head listingHTML "" with
      | .error e => (.error e, [])
      | .ok outputContent =>
        ((match env.writeFileRes with
          | some e => .error e
          | none => .ok ()),
         [FsOp.mkdir ".site", FsOp.writeFile ".site/index.html" outputContent])

/-!
Implementation-level model of `sort.Sort` — a faithful translation of the
pattern-defeating quicksort in Go's `sort/zsortinterface.go` (Go ≥ 1.19).
The array is passed explicitly; `data.Less(i, j)` is `lt xs[i] xs[j]` and
`data.Swap(i, j)` exchanges two positions.  Go's `int` loop variables are
`Nat` here; on every call the algorithm makes, the indices stay in range,
so truncated subtraction agrees with Go's arithmetic.  Loops are encoded
as fuel-based recursion with fuel large enough that it is never
exhausted on the calls made.  Nothing is proved about this model; it is
used (executably) to analyse the tie-breaking of the real `sort.Sort`.
-/

namespace GoSort

variable {α : Type}

/-- `data.Swap(i, j)`. -/
def swapAt (xs : Array α) (i j : Nat) : Array α :=
  if h : i < xs.size ∧ j < xs.size then xs.swap ⟨i, h.1⟩ ⟨j, h.2⟩ else xs

/-- `data.Less(i, j)`. -/
def lessAt [Inhabited α] (lt : α → α → Bool) (xs : Array α) (i j : Nat) : Bool :=
  lt (xs.get! i) (xs.get! j)

/-- Inner loop of `insertionSort`: `for j := i; j > a && Less(j, j-1); j--`. -/
def insInner [Inhabited α] (lt : α → α → Bool) :
    Nat → Array α → Nat → Nat → Array α
  | 0, xs, _, _ => xs
  | fuel + 1, xs, a, j =>
    if a < j ∧ lessAt lt xs j (j - 1) then
      insInner lt fuel (swapAt xs j (j - 1)) a (j - 1)
    else xs

/-- Outer loop of `insertionSort`: `for i := a + 1; i < b; i++`. -/
def insLoop [Inhabited α] (lt : α → α → Bool) :
    Nat → Array α → Nat → Nat → Nat → Array α
  | 0, xs, _, _, _ => xs
  | fuel + 1, xs, a, b, i =>
    if i < b then insLoop lt fuel (insInner lt (i + 1) xs a i) a b (i + 1)
    else xs

/-- `insertionSort(data, a, b)`. -/
def insertionSortGo [Inhabited α] (lt : α → α → Bool) (xs : Array α) (a b : Nat) :
    Array α :=
  insLoop lt (b + 1) xs a b (a + 1)

/-- `siftDown(data, lo, hi, first)` (the `lo` argument is the current
root). -/
def siftDownGo [Inhabited α] (lt : α → α → Bool) :
    Nat → Array α → Nat → Nat → Nat → Array α
  | 0, xs, _, _, _ => xs
  | fuel + 1, xs, root, hi, first =>
    let child := 2 * root + 1
    if child ≥ hi then xs
    else
      let child :=
        if child + 1 < hi ∧ lessAt lt xs (first + child) (first + child + 1) then
          child + 1
        else child
      if ¬ (lessAt lt xs (first + root) (first + child) = true) then xs
      else siftDownGo lt fuel (swapAt xs (first + root) (first + child)) child hi first

/-- Heap-building loop of `heapSort`: `for i := (hi-1)/2; i >= 0; i--`. -/
def heapBuild [Inhabited α] (lt : α → α → Bool) :
    Nat → Array α → Nat → Nat → Nat → Array α
  | 0, xs, _, _, _ => xs
  | fuel + 1, xs, i, hi, first =>
    let xs := siftDownGo lt (hi + 1) xs i hi first
    if i = 0 then xs else heapBuild lt fuel xs (i - 1) hi first

/-- Pop loop of `heapSort`: `for i := hi - 1; i >= 0; i--`. -/
def heapPop [Inhabited α] (lt : α → α → Bool) :
    Nat → Array α → Nat → Nat → Array α
  | 0, xs, _, _ => xs
  | fuel + 1, xs, i, first =>
    let xs := siftDownGo lt (i + 1) (swapAt xs first (first + i)) 0 i first
    if i = 0 then xs else heapPop lt fuel xs (i - 1) first

/-- `heapSort(data, a, b)`. -/
def heapSortGo [Inhabited α] (lt : α → α → Bool) (xs : Array α) (a b : Nat) :
    Array α :=
  let first := a
  let hi := b - a
  let xs := heapBuild lt (hi + 1) xs ((hi - 1) / 2) hi first
  if hi = 0 then xs else heapPop lt hi xs (hi - 1) first

/-- Loop of `reverseRange`: `i, j := a, b-1; for i < j`. -/
def revLoop : Nat → Array α → Nat → Nat → Array α
  | 0, xs, _, _ => xs
  | fuel + 1, xs, i, j =>
    if i < j then revLoop fuel (swapAt xs i j) (i + 1) (j - 1) else xs

/-- `reverseRange(data, a, b)`. -/
def reverseRangeGo (xs : Array α) (a b : Nat) : Array α :=
  revLoop (b + 1) xs a (b - 1)

/-- One step of Go's `xorshift` pseudo-random generator (64-bit). -/
def xorshiftNext (r : Nat) : Nat :=
  let r := (r ^^^ (r <<< 13)) % 2 ^ 64
  let r := (r ^^^ (r >>> 7)) % 2 ^ 64
  (r ^^^ (r <<< 17)) % 2 ^ 64

/-- Halving recursion for `bitsLen`, fuel-based so that it reduces
structurally. -/
def bitsLenAux : Nat → Nat → Nat
  | 0, _ => 0
  | fuel + 1, n => if n = 0 then 0 else bitsLenAux fuel (n / 2) + 1

/-- `bits.Len` (the number of bits needed to represent `n`). -/
def bitsLen (n : Nat) : Nat := bitsLenAux (n + 1) n

/-- `nextPowerOfTwo(length) = 1 << bits.Len(uint(length))`. -/
def nextPowerOfTwo (length : Nat) : Nat := 1 <<< bitsLen length

/-- One iteration of the scatter loop of `breakPatterns`. -/
def breakStep (xs : Array α) (random idx i a length modulus : Nat) :
    Array α × Nat :=
  let random := xorshiftNext random
  let other := random &&& (modulus - 1)
  let other := if other ≥ length then other - length else other
  (swapAt xs (idx - 1 + i) (a + other), random)

/-- `breakPatterns(data, a, b)`: scatter three elements around the middle
when the range has at least 8 elements; the xorshift generator is seeded
with the length. -/
def breakPatternsGo (xs : Array α) (a b : Nat) : Array α :=
  let length := b - a
  if length ≥ 8 then
    let random := length
    let modulus := nextPowerOfTwo length
    let idx := a + (length / 4) * 2 - 1
    match breakStep xs random idx 0 a length modulus with
    | (xs, random) =>
      match breakStep xs random idx 1 a length modulus with
      | (xs, random) =>
        (breakStep xs random idx 2 a length modulus).1
  else xs

/-- `order2(data, a, b, &swaps)`: put two indices in `Less` order,
counting a swap. -/
def order2 [Inhabited α] (lt : α → α → Bool) (xs : Array α) (i j s : Nat) :
    Nat × Nat × Nat :=
  if lessAt lt xs j i then (j, i, s + 1) else (i, j, s)

/-- `median(data, a, b, c, &swaps)`. -/
def medianOf [Inhabited α] (lt : α → α → Bool) (xs : Array α) (a b c s : Nat) :
    Nat × Nat :=
  match order2 lt xs a b s with
  | (a, b, s) =>
    match order2 lt xs b c s with
    | (b, _, s) =>
      match order2 lt xs a b s with
      | (_, b, s) => (b, s)

/-- `medianAdjacent(data, a, &swaps)`. -/
def medianAdjacentGo [Inhabited α] (lt : α → α → Bool) (xs : Array α) (i s : Nat) :
    Nat × Nat :=
  medianOf lt xs (i - 1) i (i + 1) s

/-- `choosePivot(data, a, b)`: the pivot index and the sortedness hint
(0 = unknown, 1 = increasing, 2 = decreasing).  For ranges of at least 50
elements the Tukey-ninther of adjacent medians is used; for at least 8,
the median of three; below that, the middle element with zero recorded
swaps (an increasing hint). -/
def choosePivotGo [Inhabited α] (lt : α → α → Bool) (xs : Array α) (a b : Nat) :
    Nat × Nat :=
  let l := b - a
  let i := a + (l / 4) * 1
  let j := a + (l / 4) * 2
  let k := a + (l / 4) * 3
  if l ≥ 8 then
    if l ≥ 50 then
      match medianAdjacentGo lt xs i 0 with
      | (i, s) =>
        match medianAdjacentGo lt xs j s with
        | (j, s) =>
          match medianAdjacentGo lt xs k s with
          | (k, s) =>
            match medianOf lt xs i j k s with
            | (j, s) => (j, if s = 0 then 1 else if s = 12 then 2 else 0)
    else
      match medianOf lt xs i j k 0 with
      | (j, s) => (j, if s = 0 then 1 else if s = 12 then 2 else 0)
  else (j, 1)

/-- First scan of `partition`'s loops: `for i <= j && Less(i, a): i++`. -/
def scanLess [Inhabited α] (lt : α → α → Bool) :
    Nat → Array α → Nat → Nat → Nat → Nat
  | 0, _, i, _, _ => i
  | fuel + 1, xs, i, j, a =>
    if i ≤ j ∧ lessAt lt xs i a then scanLess lt fuel xs (i + 1) j a else i

/-- Second scan of `partition`'s loops: `for i <= j && !Less(j, a): j--`. -/
def scanNotLess [Inhabited α] (lt : α → α → Bool) :
    Nat → Array α → Nat → Nat → Nat → Nat
  | 0, _, _, j, _ => j
  | fuel + 1, xs, i, j, a =>
    if i ≤ j ∧ ¬ (lessAt lt xs j a = true) then scanNotLess lt fuel xs i (j - 1) a
    else j

/-- Main loop of `partition` after the first exchange. -/
def partLoop [Inhabited α] (lt : α → α → Bool) :
    Nat → Array α → Nat → Nat → Nat → Array α × Nat
  | 0, xs, _, j, _ => (xs, j)
  | fuel + 1, xs, i, j, a =>
    let i := scanLess lt (j + 2) xs i j a
    let j := scanNotLess lt (j + 2) xs i j a
    if i > j then (xs, j)
    else partLoop lt fuel (swapAt xs i j) (i + 1) (j - 1) a

/-- `partition(data, a, b, pivot)`: move the pivot to `a`, two-pointer
partition the rest, and return the array, the pivot's final position and
whether the range was already partitioned. -/
def partitionGo [Inhabited α] (lt : α → α → Bool) (xs : Array α)
    (a b pivot : Nat) : Array α × Nat × Bool :=
  let xs := swapAt xs a pivot
  let i := a + 1
  let j := b - 1
  let i := scanLess lt (j + 2) xs i j a
  let j := scanNotLess lt (j + 2) xs i j a
  if i > j then (swapAt xs j a, j, true)
  else
    match partLoop lt (b - a + 1) (swapAt xs i j) (i + 1) (j - 1) a with
    | (xs, j) => (swapAt xs j a, j, false)

/-- First scan of `partitionEqual`: `for i <= j && !Less(a, i): i++`. -/
def scanNotLessA [Inhabited α] (lt : α → α → Bool) :
    Nat → Array α → Nat → Nat → Nat → Nat
  | 0, _, i, _, _ => i
  | fuel + 1, xs, i, j, a =>
    if i ≤ j ∧ ¬ (lessAt lt xs a i = true) then scanNotLessA lt fuel xs (i + 1) j a
    else i

/-- Second scan of `partitionEqual`: `for i <= j && Less(a, j): j--`. -/
def scanLessA [Inhabited α] (lt : α → α → Bool) :
    Nat → Array α → Nat → Nat → Nat → Nat
  | 0, _, _, j, _ => j
  | fuel + 1, xs, i, j, a =>
    if i ≤ j ∧ lessAt lt xs a j then scanLessA lt fuel xs i (j - 1) a else j

/-- Loop of `partitionEqual`. -/
def partEqLoop [Inhabited α] (lt : α → α → Bool) :
    Nat → Array α → Nat → Nat → Nat → Array α × Nat
  | 0, xs, i, _, _ => (xs, i)
  | fuel + 1, xs, i, j, a =>
    let i := scanNotLessA lt (j + 2) xs i j a
    let j := scanLessA lt (j + 2) xs i j a
    if i > j then (xs, i)
    else partEqLoop lt fuel (swapAt xs i j) (i + 1) (j - 1) a

/-- `partitionEqual(data, a, b, pivot)`: partition the elements equal to
the pivot to the front of the range, returning the first index of the
strictly-greater part. -/
def partitionEqualGo [Inhabited α] (lt : α → α → Bool) (xs : Array α)
    (a b pivot : Nat) : Array α × Nat :=
  let xs := swapAt xs a pivot
  partEqLoop lt (b - a + 1) xs (a + 1) (b - 1) a

/-- Scan of Go's "partial insertion sort": `for i < b && !Less(i, i-1): i++`. -/
def misScan [Inhabited α] (lt : α → α → Bool) :
    Nat → Array α → Nat → Nat → Nat
  | 0, _, i, _ => i
  | fuel + 1, xs, i, b =>
    if i < b ∧ ¬ (lessAt lt xs i (i - 1) = true) then misScan lt fuel xs (i + 1) b
    else i

/-- Left shift of the "partial insertion sort":
`for j := i - 1; j >= 1; j--`, stopping at the first ordered pair. -/
def misShiftLeft [Inhabited α] (lt : α → α → Bool) :
    Nat → Array α → Nat → Array α
  | 0, xs, _ => xs
  | fuel + 1, xs, j =>
    if j ≥ 1 then
      if ¬ (lessAt lt xs j (j - 1) = true) then xs
      else misShiftLeft lt fuel (swapAt xs j (j - 1)) (j - 1)
    else xs

/-- Right shift of the "partial insertion sort":
`for j := i + 1; j < b; j++`, stopping at the first ordered pair. -/
def misShiftRight [Inhabited α] (lt : α → α → Bool) :
    Nat → Array α → Nat → Nat → Array α
  | 0, xs, _, _ => xs
  | fuel + 1, xs, j, b =>
    if j < b then
      if ¬ (lessAt lt xs j (j - 1) = true) then xs
      else misShiftRight lt fuel (swapAt xs j (j - 1)) (j + 1) b
    else xs

/-- Step loop of the "partial insertion sort" (`maxSteps = 5` adjacent
out-of-order pairs are repaired; on ranges shorter than
`shortestShifting = 50` elements no shifting is attempted). -/
def misLoop [Inhabited α] (lt : α → α → Bool) :
    Nat → Array α → Nat → Nat → Nat → Array α × Bool
  | 0, xs, _, _, _ => (xs, false)
  | fuel + 1, xs, i, a, b =>
    let i := misScan lt (b + 1) xs i b
    if i = b then (xs, true)
    else if b - a < 50 then (xs, false)
    else
      let xs := swapAt xs i (i - 1)
      let xs := if i - a ≥ 2 then misShiftLeft lt (i + 1) xs (i - 1) else xs
      let xs := if b - i ≥ 2 then misShiftRight lt (b + 1) xs (i + 1) b else xs
      misLoop lt fuel xs i a b

/-- Go's `partialInsertionSort(data, a, b)`: repair up to five adjacent
out-of-order pairs, reporting whether the range ended up sorted. -/
def maybeInsertionSort [Inhabited α] (lt : α → α → Bool) (xs : Array α)
    (a b : Nat) : Array α × Bool :=
  misLoop lt 5 xs (a + 1) a b

/-- `pdqsort(data, a, b, limit)`, with the enclosing `for` loop and the
`wasBalanced` / `wasPartitioned` locals made explicit; `limit` is
decremented only together with `breakPatterns` and is otherwise passed
through unchanged, as in Go.  Both a `continue`
of Go's loop and a recursive call appear as recursive calls here; the
fuel bounds the total number of such steps on one path, and since every
step shrinks `b - a`, fuel `n + 10` (see `sortGo`) is never exhausted. -/
def pdqsortRec [Inhabited α] (lt : α → α → Bool) :
    Nat → Array α → Nat → Nat → Nat → Bool → Bool → Array α
  | 0, xs, _, _, _, _, _ => xs
  | fuel + 1, xs, a, b, limit, wasBalanced, wasPartitioned =>
    let length := b - a
    if length ≤ 12 then insertionSortGo lt xs a b
    else if limit = 0 then heapSortGo lt xs a b
    else
      let (xs, limit) :=
        if ¬ wasBalanced then (breakPatternsGo xs a b, limit - 1) else (xs, limit)
      match choosePivotGo lt xs a b with
      | (pivot, hint) =>
        let (xs, pivot, hint) :=
          if hint = 2 then (reverseRangeGo xs a b, (b - 1) - (pivot - a), 1)
          else (xs, pivot, hint)
        let (xs, earlyReturn) :=
          if wasBalanced ∧ wasPartitioned ∧ hint = 1 then
            maybeInsertionSort lt xs a b
          else (xs, false)
        if earlyReturn then xs
        else if 0 < a ∧ ¬ (lessAt lt xs (a - 1) pivot = true) then
          match partitionEqualGo lt xs a b pivot with
          | (xs, mid) => pdqsortRec lt fuel xs mid b limit wasBalanced wasPartitioned
        else
          match partitionGo lt xs a b pivot with
          | (xs, mid, alreadyPartitioned) =>
            let leftLen := mid - a
            let rightLen := b - mid
            let balanceThreshold := length / 8
            let wasBalanced := decide (min leftLen rightLen ≥ balanceThreshold)
            let wasPartitioned := alreadyPartitioned
            if leftLen < rightLen then
              let xs := pdqsortRec lt fuel xs a mid limit true true
              pdqsortRec lt fuel xs (mid + 1) b limit wasBalanced wasPartitioned
            else
              let xs := pdqsortRec lt fuel xs (mid + 1) b limit true true
              pdqsortRec lt fuel xs a mid limit wasBalanced wasPartitioned

/-- `sort.Sort(data)`: `limit = bits.Len(uint(n))`, then `pdqsort` over
the whole array (nothing to do for fewer than two elements). -/
def sortGo [Inhabited α] (lt : α → α → Bool) (xs : Array α) : Array α :=
  let n := xs.size
  if n ≤ 1 then xs
  else pdqsortRec lt (n + 10) xs 0 n (bitsLen n) true true

end GoSort

/-- `entrySlice.Less` as a boolean comparison on the elements themselves. -/
def entryLess (a b : readingListEntry) : Bool := decide (GoTime.after a.Date b.Date)

/-- `entryGroupSlice.Less` as a boolean comparison on the elements. -/
def groupLess (a b : entryGroup) : Bool := decide (GoTime.after a.Date b.Date)

/-- `sort.Sort(group.Entries)` under the implementation-level model. -/
def sortEntriesGo (l : List readingListEntry) : List readingListEntry :=
  (GoSort.sortGo entryLess l.toArray).toList

/-- `sort.Sort(o)` under the implementation-level model. -/
def sortGroupsGo (l : List entryGroup) : List entryGroup :=
  (GoSort.sortGo groupLess l.toArray).toList

/-- `groupEntriesByMonth` under the implementation-level model of
`sort.Sort` (canonical bucket order). -/
def groupEntriesByMonthGo (entries : List readingListEntry) : List entryGroup :=
  sortGroupsGo ((groupMapOf entries).map fun g => ⟨g.Date, sortEntriesGo g.Entries⟩)

/-!  Order-theoretic facts about the comparison relations, used by the
sortedness and uniqueness arguments. -/

instance : IsTotal readingListEntry entryBefore :=
  ⟨by intro a b; unfold entryBefore GoTime.after; omega⟩

instance : IsTrans readingListEntry entryBefore :=
  ⟨by intro a b c; unfold entryBefore GoTime.after; omega⟩

instance : IsTotal entryGroup groupBefore :=
  ⟨by intro a b; unfold groupBefore GoTime.after; omega⟩

instance : IsTrans entryGroup groupBefore :=
  ⟨by intro a b c; unfold groupBefore GoTime.after; omega⟩

instance : IsAntisymm entryGroup groupAfterStrict :=
  ⟨by
    intro a b h1 h2
    exfalso
    unfold groupAfterStrict GoTime.after at h1 h2
    omega⟩

/-- Formalisation of claim C3's stability property, from the claim's own
words: records of `l` "whose dates compare equal preserve their original
input relative order" with respect to the input sequence `input`. -/
def inputOrderPreserved (input l : List readingListEntry) : Prop :=
  l.Pairwise fun x y => x.Date = y.Date → input.indexOf x ≤ input.indexOf y

instance (input l : List readingListEntry) : Decidable (inputOrderPreserved input l) :=
  inferInstanceAs
    (Decidable (l.Pairwise fun x y : readingListEntry =>
      x.Date = y.Date → List.indexOf x input ≤ List.indexOf y input))

/-- The forbidden character pattern for claim C5: an occurrence of
`<sc` is what any `<script…>` tag would start with (no tag emitted by
the renderer starts this way). -/
def scPat : List Char := ['<', 's', 'c']

/-- A character list that cannot contribute an occurrence of `scPat` to
any concatenation it appears in: it contains no occurrence itself, and
it does not end in a proper nonempty prefix of `scPat` (namely `<` or
`<s`), so no occurrence can straddle its right edge. -/
def safeL (l : List Char) : Prop :=
  ¬ scPat <:+: l ∧ ¬ ['<'] <:+ l ∧ ¬ ['<', 's'] <:+ l

instance (l : List Char) : Decidable (safeL l) :=
  inferInstanceAs (Decidable (¬ scPat <:+: l ∧ ¬ ['<'] <:+ l ∧ ¬ ['<', 's'] <:+ l))

/-!  Concrete inputs used by counterexamples and witnesses. -/

/-- A record whose `Date` field was not set: its date is Go's zero
`time.Time`. -/
def entryNoDate : readingListEntry := ⟨"", "", "", "", goZeroTime⟩

/-- A helper to build a dated record of May 2023 with a given title. -/
def mayEntry (t : String) (day : Nat) : readingListEntry :=
  ⟨"", t, "", "", ⟨2023, 5, day, 0⟩⟩

/-- Thirteen records of one month.  Records `e` and `f` share day 7, `a`
and `g` share day 6, `k` and `l` share day 2; `sort.Sort` needs more
than 12 elements to leave insertion sort behind, and on this input its
first partition pass reorders the ties. -/
def ex13 : List readingListEntry :=
  [mayEntry "a" 6, mayEntry "b" 10, mayEntry "c" 9, mayEntry "d" 8,
   mayEntry "e" 7, mayEntry "f" 7, mayEntry "g" 6, mayEntry "h" 5,
   mayEntry "i" 4, mayEntry "j" 3, mayEntry "k" 2, mayEntry "l" 2,
   mayEntry "m" 1]

/-- The spec's end-to-end example rows: one January 2023 and one
February 2023 article. -/
def exTwoMonths : List readingListEntry :=
  [⟨"https://a.example", "Title A", "", "", ⟨2023, 1, 5, 0⟩⟩,
   ⟨"https://b.example", "Title B", "Desc B", "https://img.example/x.png",
     ⟨2023, 2, 10, 0⟩⟩]

/-- The bucket list of `exTwoMonths` in the other iteration order the Go
map could present. -/
def exTwoMonthsSwapped : List entryGroup := (groupMapOf exTwoMonths).reverse

/-- A record with the claim C5 title. -/
def entryScript : readingListEntry :=
  ⟨"https://a.example", "<script>", "desc", "", ⟨2023, 1, 5, 0⟩⟩

/-- An environment whose `ReadFile` fails and whose other stages would
succeed. -/
def envReadFail : GenEnv where
  readFileRes := .error "open readingList.csv: no such file or directory"
  unmarshalRes := fun _ => .ok []
  tmplParseRes := .ok "page"
  tmplExecRes := fun _ _ => ("", none)
  now := goZeroTime
  mkdirRes := none
  writeFileRes := none

/-- An environment whose template parses but whose `Execute` fails after
writing a prefix of the document to the buffer. -/
def envExecFail : GenEnv where
  readFileRes := .ok ""
  unmarshalRes := fun _ => .ok []
  tmplParseRes := .ok "page"
  tmplExecRes := fun _ _ => ("<html><head>", some "template: page: exec error")
  now := goZeroTime
  mkdirRes := none
  writeFileRes := none

/-!  ## Theorems

Order facts about `GoTime.after`, then the grouping invariants, then the
claims themselves. -/

theorem GoTime.after_irrefl (t : GoTime) : ¬ GoTime.after t t := by
  unfold GoTime.after; omega

theorem GoTime.after_of_ne {d e : GoTime} (hne : d ≠ e)
    (h : ¬ GoTime.after e d) : GoTime.after d e := by
  rcases d with ⟨y1, m1, d1, t1⟩
  rcases e with ⟨y2, m2, d2, t2⟩
  simp only [ne_eq, GoTime.mk.injEq] at hne
  simp only [GoTime.after] at h ⊢
  omega

theorem perm_append_singleton_right {α : Type} (x F : List α) (e : α) :
    ((x ++ [e]) ++ F).Perm ((x ++ F) ++ [e]) := by
  have h1 : (x ++ [e]) ++ F = x ++ ([e] ++ F) := List.append_assoc _ _ _
  have h2 : (x ++ F) ++ [e] = x ++ (F ++ [e]) := List.append_assoc _ _ _
  rw [h1, h2]
  exact List.perm_append_comm.append_left x

theorem mem_dates_insertGrouped {gs : List entryGroup} {k d : GoTime}
    {e : readingListEntry} :
    d ∈ (insertGrouped gs k e).map (fun g => g.Date) ↔
      d ∈ gs.map (fun g => g.Date) ∨ d = k := by
  induction gs with
  | nil => simp [insertGrouped]
  | cons g rest ih =>
    by_cases h : g.Date = k
    · subst h
      simp [insertGrouped]
      tauto
    · simp only [insertGrouped, if_neg h, List.map_cons, List.mem_cons]
      rw [ih]
      tauto

theorem nodup_dates_insertGrouped {gs : List entryGroup} {k : GoTime}
    {e : readingListEntry} (h : (gs.map (fun g => g.Date)).Nodup) :
    ((insertGrouped gs k e).map (fun g => g.Date)).Nodup := by
  induction gs with
  | nil => simp [insertGrouped]
  | cons g rest ih =>
    simp only [List.map_cons, List.nodup_cons] at h
    by_cases hk : g.Date = k
    · simp only [insertGrouped, if_pos hk, List.map_cons, List.nodup_cons]
      exact ⟨h.1, h.2⟩
    · simp only [insertGrouped, if_neg hk, List.map_cons, List.nodup_cons]
      refine ⟨fun hmem => ?_, ih h.2⟩
      rcases mem_dates_insertGrouped.mp hmem with hin | heq
      · exact h.1 hin
      · exact hk heq

theorem keyed_insertGrouped : ∀ (gs : List entryGroup) (k : GoTime)
    (e : readingListEntry), monthKey e.Date = k →
    (∀ g ∈ gs, ∀ x ∈ g.Entries, monthKey x.Date = g.Date) →
    ∀ g ∈ insertGrouped gs k e, ∀ x ∈ g.Entries, monthKey x.Date = g.Date := by
  intro gs
  induction gs with
  | nil =>
    intro k e hk _ g hg x hx
    simp only [insertGrouped, List.mem_singleton] at hg
    subst hg
    simp only [List.mem_singleton] at hx
    subst hx
    exact hk
  | cons g0 rest ih =>
    intro k e hk hgs g hg x hx
    by_cases hd : g0.Date = k
    · simp only [insertGrouped, if_pos hd, List.mem_cons] at hg
      rcases hg with hg | hg
      · subst hg
        simp only [List.mem_append, List.mem_singleton] at hx
        rcases hx with hx | hx
        · exact hgs g0 (List.mem_cons_self _ _) x hx
        · subst hx; rw [hk, hd]
      · exact hgs g (List.mem_cons_of_mem _ hg) x hx
    · simp only [insertGrouped, if_neg hd, List.mem_cons] at hg
      rcases hg with hg | hg
      · subst hg; exact hgs _ (List.mem_cons_self _ _) x hx
      · exact ih k e hk (fun g' hg' => hgs g' (List.mem_cons_of_mem _ hg')) g hg x hx

theorem flat_insertGrouped (gs : List entryGroup) (k : GoTime)
    (e : readingListEntry) :
    (((insertGrouped gs k e).map fun g => g.Entries).flatten).Perm
      ((gs.map fun g => g.Entries).flatten ++ [e]) := by
  induction gs with
  | nil => simp [insertGrouped]
  | cons g rest ih =>
    by_cases hd : g.Date = k
    · simp only [insertGrouped, if_pos hd, List.map_cons, List.flatten_cons]
      exact perm_append_singleton_right g.Entries _ e
    · simp only [insertGrouped, if_neg hd, List.map_cons, List.flatten_cons]
      have h2 : g.Entries ++ ((rest.map fun g => g.Entries).flatten ++ [e])
          = (g.Entries ++ (rest.map fun g => g.Entries).flatten) ++ [e] :=
        (List.append_assoc _ _ _).symm
      exact h2 ▸ (ih.append_left g.Entries)

theorem nodup_dates_foldl : ∀ (es : List readingListEntry) (gs : List entryGroup),
    (gs.map (fun g => g.Date)).Nodup →
    ((es.foldl (fun gs e => insertGrouped gs (monthKey e.Date) e) gs).map
      (fun g => g.Date)).Nodup
  | [], _, h => h
  | _ :: es, _, h =>
    nodup_dates_foldl es _ (nodup_dates_insertGrouped h)

theorem keyed_foldl : ∀ (es : List readingListEntry) (gs : List entryGroup),
    (∀ g ∈ gs, ∀ x ∈ g.Entries, monthKey x.Date = g.Date) →
    ∀ g ∈ es.foldl (fun gs e => insertGrouped gs (monthKey e.Date) e) gs,
      ∀ x ∈ g.Entries, monthKey x.Date = g.Date
  | [], _, h => h
  | e :: es, gs, h =>
    keyed_foldl es _ (keyed_insertGrouped gs (monthKey e.Date) e rfl h)

theorem flat_foldl : ∀ (es : List readingListEntry) (gs : List entryGroup),
    (((es.foldl (fun gs e => insertGrouped gs (monthKey e.Date) e) gs).map
      fun g => g.Entries).flatten).Perm
      ((gs.map fun g => g.Entries).flatten ++ es) := by
  intro es
  induction es with
  | nil => intro gs; simp
  | cons e es ih =>
    intro gs
    have h1 := ih (insertGrouped gs (monthKey e.Date) e)
    have h2 : ((((insertGrouped gs (monthKey e.Date) e).map
        fun g => g.Entries).flatten) ++ es).Perm
        (((gs.map fun g => g.Entries).flatten ++ [e]) ++ es) :=
      (flat_insertGrouped gs (monthKey e.Date) e).append_right es
    have h3 : ((gs.map fun g => g.Entries).flatten ++ [e]) ++ es
        = (gs.map fun g => g.Entries).flatten ++ (e :: es) := by
      rw [List.append_assoc]; rfl
    exact (h1.trans h2).trans (h3 ▸ List.Perm.refl _)

theorem nodup_dates_groupMapOf (entries : List readingListEntry) :
    ((groupMapOf entries).map (fun g => g.Date)).Nodup :=
  nodup_dates_foldl entries [] (by simp)

theorem keyed_groupMapOf (entries : List readingListEntry) :
    ∀ g ∈ groupMapOf entries, ∀ x ∈ g.Entries, monthKey x.Date = g.Date :=
  keyed_foldl entries [] (by simp)

theorem flat_groupMapOf (entries : List readingListEntry) :
    (((groupMapOf entries).map fun g => g.Entries).flatten).Perm entries := by
  have h := flat_foldl entries []
  simpa using h

theorem mem_finishGroups {gs : List entryGroup} {g : entryGroup} :
    g ∈ finishGroups gs ↔
      ∃ g0 ∈ gs, g = ⟨g0.Date, sortEntries g0.Entries⟩ := by
  unfold finishGroups sortGroups
  rw [List.mem_insertionSort]
  simp only [List.mem_map]
  constructor
  · rintro ⟨g0, hg0, rfl⟩; exact ⟨g0, hg0, rfl⟩
  · rintro ⟨g0, hg0, rfl⟩; exact ⟨g0, hg0, rfl⟩

theorem dates_finishGroups_perm (gs : List entryGroup) :
    ((finishGroups gs).map (fun g => g.Date)).Perm (gs.map (fun g => g.Date)) := by
  unfold finishGroups sortGroups
  have h1 := (List.perm_insertionSort groupBefore
    (gs.map fun g => ⟨g.Date, sortEntries g.Entries⟩)).map (fun g => g.Date)
  simpa [List.map_map, Function.comp] using h1

theorem flat_map_sortEntries_perm (gs : List entryGroup) :
    (((gs.map fun g => (⟨g.Date, sortEntries g.Entries⟩ : entryGroup)).map
      fun g => g.Entries).flatten).Perm ((gs.map fun g => g.Entries).flatten) := by
  induction gs with
  | nil => simp
  | cons g rest ih =>
    simp only [List.map_cons, List.flatten_cons]
    exact (List.perm_insertionSort entryBefore g.Entries).append ih

theorem flat_finishGroups_perm (gs : List entryGroup) :
    (((finishGroups gs).map fun g => g.Entries).flatten).Perm
      ((gs.map fun g => g.Entries).flatten) := by
  unfold finishGroups sortGroups
  have h1 := ((List.perm_insertionSort groupBefore
    (gs.map fun g => ⟨g.Date, sortEntries g.Entries⟩)).map
      (fun g => g.Entries)).flatten
  exact h1.trans (flat_map_sortEntries_perm gs)

theorem sorted_finishGroups (gs : List entryGroup) :
    (finishGroups gs).Sorted groupBefore :=
  List.sorted_insertionSort groupBefore _

theorem keyed_finishGroups {gs : List entryGroup}
    (h : ∀ g ∈ gs, ∀ x ∈ g.Entries, monthKey x.Date = g.Date) :
    ∀ g ∈ finishGroups gs, ∀ x ∈ g.Entries, monthKey x.Date = g.Date := by
  intro g hg x hx
  rcases mem_finishGroups.mp hg with ⟨g0, hg0, rfl⟩
  have hx0 : x ∈ g0.Entries := by
    have := (List.perm_insertionSort entryBefore g0.Entries).mem_iff.mp hx
    exact this
  exact h g0 hg0 x hx0

theorem sorted_strict_of_nodup {l : List entryGroup} (hs : l.Sorted groupBefore)
    (hn : (l.map (fun g => g.Date)).Nodup) : l.Sorted groupAfterStrict := by
  have hp : l.Pairwise (fun a b : entryGroup => a.Date ≠ b.Date) :=
    List.pairwise_map.mp hn
  have hps : l.Pairwise (fun a b : entryGroup => groupBefore a b ∧ a.Date ≠ b.Date) :=
    hs.and hp
  exact hps.imp fun h => GoTime.after_of_ne h.2 h.1

theorem finishGroups_eq_of_perm {gs1 gs2 : List entryGroup} (hp : gs1.Perm gs2)
    (hn : (gs2.map (fun g => g.Date)).Nodup) :
    finishGroups gs1 = finishGroups gs2 := by
  have hperm : (finishGroups gs1).Perm (finishGroups gs2) := by
    unfold finishGroups sortGroups
    exact (List.perm_insertionSort _ _).trans
      ((hp.map _).trans (List.perm_insertionSort _ _).symm)
  have hn1 : ((finishGroups gs1).map (fun g => g.Date)).Nodup :=
    ((dates_finishGroups_perm gs1).nodup_iff).mpr
      (((hp.map (fun g => g.Date)).nodup_iff).mpr hn)
  have hn2 : ((finishGroups gs2).map (fun g => g.Date)).Nodup :=
    ((dates_finishGroups_perm gs2).nodup_iff).mpr hn
  exact List.eq_of_perm_of_sorted hperm
    (sorted_strict_of_nodup (sorted_finishGroups gs1) hn1)
    (sorted_strict_of_nodup (sorted_finishGroups gs2) hn2)

theorem mem_of_mem_groupEntriesByMonth {entries : List readingListEntry}
    {g : entryGroup} {x : readingListEntry}
    (hg : g ∈ groupEntriesByMonth entries) (hx : x ∈ g.Entries) : x ∈ entries := by
  have h1 : x ∈ ((groupEntriesByMonth entries).map fun g => g.Entries).flatten :=
    List.mem_flatten.mpr ⟨g.Entries, List.mem_map_of_mem _ hg, hx⟩
  have h2 := (flat_finishGroups_perm (groupMapOf entries)).trans
    (flat_groupMapOf entries)
  exact h2.mem_iff.mp h1

theorem exists_group_of_mem {entries : List readingListEntry}
    {x : readingListEntry} (hx : x ∈ entries) :
    ∃ g ∈ groupEntriesByMonth entries, x ∈ g.Entries := by
  have h2 := (flat_finishGroups_perm (groupMapOf entries)).trans
    (flat_groupMapOf entries)
  have h1 : x ∈ ((groupEntriesByMonth entries).map fun g => g.Entries).flatten :=
    h2.mem_iff.mpr hx
  rcases List.mem_flatten.mp h1 with ⟨es, hes, hx'⟩
  rcases List.mem_map.mp hes with ⟨g, hg, rfl⟩
  exact ⟨g, hg, hx'⟩

/-- Claim C1: in the output of `groupEntriesByMonth`, the records within
each month group are ordered by date descending, and the month groups
are ordered by key date descending: for all adjacent elements, the
earlier one's date is ≥ the later one's date (`¬ later.After(earlier)`). -/
theorem groupEntriesByMonth_sorted_desc (entries : List readingListEntry) :
    List.Chain' groupBefore (groupEntriesByMonth entries) ∧
    ∀ g ∈ groupEntriesByMonth entries, List.Chain' entryBefore g.Entries := by
  constructor
  · exact List.Pairwise.chain' (sorted_finishGroups (groupMapOf entries))
  · intro g hg
    rcases mem_finishGroups.mp hg with ⟨g0, _, rfl⟩
    exact List.Pairwise.chain' (List.sorted_insertionSort entryBefore g0.Entries)

/-- Claim C2: `groupEntriesByMonth` produces a partition — every record
lands in the group keyed by its date's month key (year and month, day 1,
time zeroed), the group keys are pairwise distinct (so that group is
unique), and the concatenation of all group contents is a permutation of
the input (multiset equality). -/
theorem groupEntriesByMonth_partition (entries : List readingListEntry) :
    (∀ g ∈ groupEntriesByMonth entries, ∀ x ∈ g.Entries, monthKey x.Date = g.Date) ∧
    ((groupEntriesByMonth entries).map (fun g => g.Date)).Nodup ∧
    (((groupEntriesByMonth entries).map fun g => g.Entries).flatten).Perm entries := by
  refine ⟨keyed_finishGroups (keyed_groupMapOf entries), ?_, ?_⟩
  · exact ((dates_finishGroups_perm _).nodup_iff).mpr (nodup_dates_groupMapOf entries)
  · exact (flat_finishGroups_perm _).trans (flat_groupMapOf entries)

/-- Claim C3 (amended): group-level ties cannot occur — the group key
dates of `groupEntriesByMonth`'s output are pairwise distinct and the
group order is strictly descending, so the group sort's result does not
depend on tie-breaking; record-level ties within a group carry no
input-order guarantee (see the counterexample). -/
theorem groupEntriesByMonth_no_group_ties (entries : List readingListEntry) :
    (groupEntriesByMonth entries).Pairwise (fun g h => g.Date ≠ h.Date) ∧
    List.Chain' groupAfterStrict (groupEntriesByMonth entries) := by
  have hn : ((groupEntriesByMonth entries).map (fun g => g.Date)).Nodup :=
    ((dates_finishGroups_perm _).nodup_iff).mpr (nodup_dates_groupMapOf entries)
  refine ⟨List.pairwise_map.mp hn, ?_⟩
  exact List.Pairwise.chain'
    (sorted_strict_of_nodup (sorted_finishGroups (groupMapOf entries)) hn)

set_option maxRecDepth 100000 in
/-- Claim C3 (counterexample): on the 13 one-month records of `ex13`,
the implementation-level model of `sort.Sort` (Go's pattern-defeating
quicksort) does not preserve the input order of equal dates: records
`f` and `e` share one date with `e` first in the input, and `g` and `a`
share one date with `a` first in the input, yet the rendered group holds
`f` before `e` and `g` before `a`.  A stable sort would produce
`[b, c, d, e, f, a, g, h, i, j, k, l, m]`. -/
theorem groupEntriesByMonthGo_ties_reordered :
    ((groupEntriesByMonthGo ex13).map fun g => g.Entries.map (fun e => e.Title)) =
      [["b", "c", "d", "f", "e", "g", "a", "h", "i", "j", "k", "l", "m"]] ∧
    ¬ inputOrderPreserved ex13 ((groupEntriesByMonthGo ex13).getD 0 default).Entries := by
  constructor
  · decide
  · decide

/-- Claim C4 (amended): every record whose date is unset (Go's zero
`time.Time`, i.e. January 1 of year **1**) lands in the single month
group keyed `⟨1, 1, 1, 0⟩`: its group's key is that time, and any group
of the output sharing that key is the same group. -/
theorem groupEntriesByMonth_zero_date (entries : List readingListEntry)
    (g : entryGroup) (x : readingListEntry)
    (hg : g ∈ groupEntriesByMonth entries) (hx : x ∈ g.Entries)
    (hd : x.Date = goZeroTime) :
    g.Date = goZeroTime ∧
      ∀ g' ∈ groupEntriesByMonth entries, g'.Date = g.Date → g' = g := by
  have hkey := (groupEntriesByMonth_partition entries).1 g hg x hx
  have hzero : g.Date = goZeroTime := by
    rw [← hkey, hd]; rfl
  refine ⟨hzero, fun g' hg' hdd => ?_⟩
  have hn := (groupEntriesByMonth_partition entries).2.1
  exact List.inj_on_of_nodup_map hn hg' hg hdd

/-- Claim C4 (counterexample): a record with the zero date is grouped
under key year 1, month 1 — not year 0 as the claim states (Go's zero
`time.Time` is January 1 of year 1). -/
theorem groupEntriesByMonth_zero_date_year_one :
    ((groupEntriesByMonth [entryNoDate]).map fun g => (g.Date.year, g.Date.month)) =
      [((1 : Int), (1 : Nat))] ∧ (1 : Int) ≠ 0 := by
  constructor
  · decide
  · decide

/-- Claim C7: the pipeline is deterministic despite the unordered map
used for grouping — whatever order the map presents the buckets in
(any permutation of the bucket list), the sorted group list and the
rendered listing are identical. -/
theorem groupEntriesByMonth_deterministic (entries : List readingListEntry)
    (buckets : List entryGroup) (hp : buckets.Perm (groupMapOf entries)) :
    finishGroups buckets = groupEntriesByMonth entries ∧
    makeListHTML (finishGroups buckets) = makeListHTML (groupEntriesByMonth entries) := by
  have he : finishGroups buckets = finishGroups (groupMapOf entries) :=
    finishGroups_eq_of_perm hp (nodup_dates_groupMapOf entries)
  exact ⟨he, by rw [he]; rfl⟩

/-- Witness for claim C4's amended theorem at the concrete one-record
input `[entryNoDate]`. -/
theorem groupEntriesByMonth_zero_date_witness :
    (⟨goZeroTime, [entryNoDate]⟩ : entryGroup).Date = goZeroTime ∧
      ∀ g' ∈ groupEntriesByMonth [entryNoDate],
        g'.Date = (⟨goZeroTime, [entryNoDate]⟩ : entryGroup).Date →
          g' = ⟨goZeroTime, [entryNoDate]⟩ :=
  groupEntriesByMonth_zero_date [entryNoDate] ⟨goZeroTime, [entryNoDate]⟩
    entryNoDate (by decide) (by decide) (by decide)

/-- Witness for claim C7 at the spec's two-month example, presenting the
buckets to the sort in the opposite iteration order. -/
theorem groupEntriesByMonth_deterministic_witness :
    finishGroups exTwoMonthsSwapped = groupEntriesByMonth exTwoMonths ∧
    makeListHTML (finishGroups exTwoMonthsSwapped) =
      makeListHTML (groupEntriesByMonth exTwoMonths) :=
  groupEntriesByMonth_deterministic exTwoMonths exTwoMonthsSwapped (by decide)

/-- Claim C6 (counterexample): for the empty group list — as produced
from an input with zero records — `makeListHTML` does not return the
empty string. -/
theorem makeListHTML_empty_ne_empty_string :
    makeListHTML (groupEntriesByMonth []) ≠ "" := by decide

/-- Claim C6 (amended): for the empty group list, `makeListHTML` returns
the self-closed empty wrapper `<div/>` (`daz.H` renders an element with
empty content self-closing) — an empty fragment, but not the empty
string. -/
theorem makeListHTML_empty : makeListHTML (groupEntriesByMonth []) = "<div/>" :=
  rfl

/-- Claim C8: whenever reading the input file, unmarshalling the CSV, or
parsing the page template fails, `GenerateSite` returns that error and
performs no file-system operation at all — in particular
`.site/index.html` is not written. -/
theorem GenerateSite_error_no_write (env : GenEnv)
    (h : (∃ e, env.readFileRes = .error e) ∨
         (∃ s e, env.readFileRes = .ok s ∧ env.unmarshalRes s = .error e) ∨
         (∃ e, env.tmplParseRes = .error e)) :
    (∃ e, (GenerateSite env).1 = .error e) ∧ (GenerateSite env).2 = [] := by
  rcases h with ⟨e, he⟩ | ⟨s, e, hs, he⟩ | ⟨e, he⟩
  · simp [GenerateSite, he]
  · simp [GenerateSite, hs, he]
  · rcases hr : env.readFileRes with e2 | s
    · simp [GenerateSite, hr]
    · rcases hu : env.unmarshalRes s with e2 | entries
      · simp [GenerateSite, hr, hu]
      · simp [GenerateSite, renderHTMLPage, hr, hu, he]

/-- Witness for claim C8 at the concrete environment whose `ReadFile`
fails. -/
theorem GenerateSite_error_no_write_witness :
    (∃ e, (GenerateSite envReadFail).1 = .error e) ∧
      (GenerateSite envReadFail).2 = [] :=
  GenerateSite_error_no_write envReadFail
    (Or.inl ⟨"open readingList.csv: no such file or directory", rfl⟩)

/-- Claim C9: `renderHTMLPage` fails exactly when the embedded page
template fails to parse, whatever data it is given — a malformed
template is its only (and data-independent) failure. -/
theorem renderHTMLPage_error_iff (env : GenEnv) (t tb pc eh : String) :
    (∃ e, renderHTMLPage env t tb pc eh = .error e) ↔
      (∃ e, env.tmplParseRes = .error e) := by
  rcases hr : env.tmplParseRes with e | tpl
  · simp [renderHTMLPage, hr]
  · simp [renderHTMLPage, hr]

/-- Claim C10: if the embedded template parses, `renderHTMLPage` returns
`.ok` regardless of whether template execution succeeds: the `Execute`
error is discarded and the returned bytes are whatever prefix execution
wrote to the buffer. -/
theorem renderHTMLPage_discards_exec_error (env : GenEnv)
    (t tb pc eh tpl : String) (h : env.tmplParseRes = .ok tpl) :
    renderHTMLPage env t tb pc eh =
      .ok ((env.tmplExecRes tpl ⟨t, pc, tb, eh⟩).1) := by
  unfold renderHTMLPage
  rw [h]

/-- Witness for claim C10 at the concrete environment whose `Execute`
fails after writing `<html><head>`: the error is discarded and the
prefix is returned. -/
theorem renderHTMLPage_discards_exec_error_witness :
    renderHTMLPage envExecFail "t" "h" "c" "" = .ok "<html><head>" :=
  renderHTMLPage_discards_exec_error envExecFail "t" "h" "c" "" "page" rfl

theorem isInfix_iff_drop_take {P L : List Char} :
    P <:+: L ↔ ∃ i, (L.drop i).take P.length = P := by
  constructor
  · rintro ⟨s, t, rfl⟩
    refine ⟨s.length, ?_⟩
    rw [List.append_assoc, List.drop_left]
    exact List.take_left P t
  · rintro ⟨i, h⟩
    refine ⟨L.take i, L.drop (i + P.length), ?_⟩
    conv_rhs => rw [← List.take_append_drop i L]
    rw [List.append_assoc]
    congr 1
    conv_rhs => rw [← List.take_append_drop P.length (L.drop i)]
    rw [h, List.drop_drop]

theorem safeL_append {x y : List Char} (hx : safeL x) (hy : safeL y) :
    safeL (x ++ y) := by
  obtain ⟨hx1, hx2, hx3⟩ := hx
  obtain ⟨hy1, hy2, hy3⟩ := hy
  have hP : scPat.length = 3 := rfl
  refine ⟨?_, ?_, ?_⟩
  · intro hinf
    rcases isInfix_iff_drop_take.mp hinf with ⟨i, hi⟩
    rw [hP, List.drop_append_eq_append_drop] at hi
    have hlen : (List.drop i x).length = x.length - i := List.length_drop _ _
    by_cases hA : i + 3 ≤ x.length
    · apply hx1
      rw [isInfix_iff_drop_take, hP]
      refine ⟨i, ?_⟩
      rw [List.take_append_eq_append_take, hlen] at hi
      have h0 : 3 - (x.length - i) = 0 := by omega
      rw [h0, List.take_zero, List.append_nil] at hi
      exact hi
    · by_cases hB : x.length ≤ i
      · apply hy1
        rw [isInfix_iff_drop_take, hP]
        have hx0 : List.drop i x = [] := List.drop_eq_nil_of_le hB
        rw [hx0, List.nil_append] at hi
        exact ⟨i - x.length, hi⟩
      · push_neg at hA hB
        have h12 : (List.drop i x).length = 1 ∨ (List.drop i x).length = 2 := by
          omega
        rcases h12 with h1 | h2
        · rcases List.length_eq_one.mp h1 with ⟨c, hc⟩
          rw [hc] at hi
          simp only [List.singleton_append, List.take_succ_cons, scPat,
            List.cons.injEq] at hi
          apply hx2
          have hs : List.drop i x <:+ x := List.drop_suffix i x
          rw [hc, hi.1] at hs
          exact hs
        · rcases List.length_eq_two.mp h2 with ⟨c1, c2, hc⟩
          rw [hc] at hi
          simp only [List.cons_append, List.nil_append, List.take_succ_cons,
            scPat, List.cons.injEq] at hi
          apply hx3
          have hs : List.drop i x <:+ x := List.drop_suffix i x
          rw [hc, hi.1, hi.2.1] at hs
          exact hs
  · intro hsuf
    rcases List.suffix_or_suffix_of_suffix hsuf (List.suffix_append x y) with h | h
    · exact hy2 h
    · rcases h with ⟨t, ht⟩
      rcases t with _ | ⟨a, t⟩
      · rw [List.nil_append] at ht
        exact hy2 (ht ▸ List.suffix_rfl)
      · simp only [List.cons_append, List.cons.injEq] at ht
        have hy0 : y = [] := (List.append_eq_nil.mp ht.2).2
        rw [hy0, List.append_nil] at hsuf
        exact hx2 hsuf
  · intro hsuf
    rcases List.suffix_or_suffix_of_suffix hsuf (List.suffix_append x y) with h | h
    · exact hy3 h
    · rcases h with ⟨t, ht⟩
      rcases t with _ | ⟨a, t⟩
      · rw [List.nil_append] at ht
        exact hy3 (ht ▸ List.suffix_rfl)
      · rcases t with _ | ⟨b, t⟩
        · simp only [List.cons_append, List.nil_append, List.cons.injEq] at ht
          -- y ends the pair: y = ['s'], and then x must end with '<'
          rcases hsuf with ⟨t', ht'⟩
          rw [ht.2] at ht'
          -- ht' : t' ++ ['<', 's'] = x ++ ['s']
          have hsplit : t' ++ ['<', 's'] = (t' ++ ['<']) ++ ['s'] := by
            rw [List.append_assoc]; rfl
          rw [hsplit] at ht'
          have hdl := congrArg List.dropLast ht'
          rw [List.dropLast_concat, List.dropLast_concat] at hdl
          exact hx2 ⟨t', hdl⟩
        · simp only [List.cons_append, List.cons.injEq] at ht
          have hy0 : y = [] := (List.append_eq_nil.mp ht.2.2).2
          rw [hy0, List.append_nil] at hsuf
          exact hx3 hsuf

theorem not_mem_escapeChars (c : Char) : '<' ∉ escapeChars c := by
  unfold escapeChars
  split_ifs with h1 h2 h3 h4 h5
  · decide
  · decide
  · decide
  · decide
  · decide
  · simp only [List.mem_singleton]
    exact fun h => h3 h.symm

theorem not_mem_escapeList (l : List Char) : '<' ∉ escapeList l := by
  intro hmem
  rcases List.mem_flatMap.mp hmem with ⟨c, _, hc⟩
  exact not_mem_escapeChars c hc

theorem safeL_of_not_mem {l : List Char} (h : '<' ∉ l) : safeL l := by
  refine ⟨fun hc => h (hc.subset ?_), fun hc => h (hc.subset ?_),
    fun hc => h (hc.subset ?_)⟩ <;> decide

theorem safeL_escapeList (l : List Char) : safeL (escapeList l) :=
  safeL_of_not_mem (not_mem_escapeList l)

theorem safeL_escapeString (s : String) : safeL (escapeString s).data :=
  safeL_escapeList s.data

theorem safeL_flatten : ∀ {l : List (List Char)}, (∀ p ∈ l, safeL p) →
    safeL l.flatten
  | [], _ => by decide
  | p :: rest, h => by
    rw [List.flatten_cons]
    exact safeL_append (h p (List.mem_cons_self _ _))
      (safeL_flatten fun q hq => h q (List.mem_cons_of_mem _ hq))

theorem string_join_data : ∀ (l : List String),
    (String.join l).data = (l.map String.data).flatten := by
  have aux : ∀ (l : List String) (acc : String),
      (l.foldl (fun r s => r ++ s) acc).data = acc.data ++ (l.map String.data).flatten := by
    intro l
    induction l with
    | nil => intro acc; simp
    | cons s rest ih =>
      intro acc
      simp only [List.foldl_cons, List.map_cons, List.flatten_cons]
      rw [ih, String.data_append, List.append_assoc]
  intro l
  have h := aux l ""
  rw [show String.join l = l.foldl (fun r s => r ++ s) "" from rfl, h]
  rfl

theorem safeL_renderAnchor (text url : String) (hurl : '<' ∉ url.data) :
    safeL (renderAnchor text url false).data := by
  unfold renderAnchor
  simp only [Bool.false_eq_true, if_false]
  split_ifs with h
  · simp only [String.data_append]
    repeat first
      | exact safeL_of_not_mem hurl
      | apply safeL_append
      | decide
  · simp only [String.data_append]
    repeat first
      | exact safeL_escapeString _
      | exact safeL_of_not_mem hurl
      | apply safeL_append
      | decide

theorem safeL_renderEntryLi (e : readingListEntry) (hurl : '<' ∉ e.URL.data)
    (himg : '<' ∉ e.Image.data) : safeL (renderEntryLi e).data := by
  have hanchor := safeL_renderAnchor e.Title e.URL hurl
  simp only [renderEntryLi]
  split_ifs with h1 h2 h3 <;>
    simp only [String.data_append] <;>
    repeat first
      | exact hanchor
      | exact safeL_escapeString _
      | exact safeL_of_not_mem himg
      | apply safeL_append
      | decide

theorem safeL_renderGroup (g : entryGroup)
    (h : ∀ x ∈ g.Entries, '<' ∉ x.URL.data ∧ '<' ∉ x.Image.data) :
    safeL (renderGroup g).data := by
  have hjoin : safeL ((g.Entries.map renderEntryLi).map String.data).flatten := by
    apply safeL_flatten
    intro p hp
    rcases List.mem_map.mp hp with ⟨s, hs, rfl⟩
    rcases List.mem_map.mp hs with ⟨x, hx, rfl⟩
    exact safeL_renderEntryLi x (h x hx).1 (h x hx).2
  simp only [renderGroup]
  split_ifs with hitems
  · simp only [String.data_append]
    repeat first
      | exact safeL_escapeString _
      | apply safeL_append
      | decide
  · simp only [String.data_append, string_join_data]
    repeat first
      | exact hjoin
      | exact safeL_escapeString _
      | apply safeL_append
      | decide

theorem safeL_makeListHTML (groups : List entryGroup)
    (h : ∀ g ∈ groups, ∀ x ∈ g.Entries, '<' ∉ x.URL.data ∧ '<' ∉ x.Image.data) :
    safeL (makeListHTML groups).data := by
  have hjoin : safeL ((groups.map renderGroup).map String.data).flatten := by
    apply safeL_flatten
    intro p hp
    rcases List.mem_map.mp hp with ⟨s, hs, rfl⟩
    rcases List.mem_map.mp hs with ⟨g, hg, rfl⟩
    exact safeL_renderGroup g (h g hg)
  simp only [makeListHTML]
  split_ifs with hparts
  · decide
  · simp only [String.data_append, string_join_data]
    repeat first
      | exact hjoin
      | apply safeL_append
      | decide

theorem isInfix_append_of_left {p X : List Char} (Y : List Char)
    (h : p <:+: X) : p <:+: X ++ Y := by
  rcases h with ⟨s, t, hst⟩
  exact ⟨s, t ++ Y, by rw [← hst]; simp [List.append_assoc]⟩

theorem isInfix_append_of_right {p Y : List Char} (X : List Char)
    (h : p <:+: Y) : p <:+: X ++ Y := by
  rcases h with ⟨s, t, hst⟩
  exact ⟨X ++ s, t, by rw [← hst]; simp [List.append_assoc]⟩

theorem isInfix_flatten_of_mem {p : List Char} {L : List (List Char)}
    (h : p ∈ L) : p <:+: L.flatten := by
  induction L with
  | nil => cases h
  | cons q rest ih =>
    rw [List.flatten_cons]
    rcases List.mem_cons.mp h with rfl | h'
    · exact isInfix_append_of_left _ List.infix_rfl
    · exact isInfix_append_of_right _ (ih h')

theorem renderEntryLi_data_ne_nil (e : readingListEntry) :
    (renderEntryLi e).data ≠ [] := by
  intro h0
  simp only [renderEntryLi, String.data_append] at h0
  rw [List.append_eq_nil] at h0
  exact absurd h0.2 (by decide)

theorem renderGroup_data_ne_nil (g : entryGroup) :
    (renderGroup g).data ≠ [] := by
  intro h0
  simp only [renderGroup, String.data_append] at h0
  rw [List.append_eq_nil, List.append_eq_nil, List.append_eq_nil] at h0
  exact absurd h0.1.1.1 (by decide)

theorem string_join_ne_empty_of_mem {l : List String} {s : String}
    (hs : s ∈ l) (hne : s.data ≠ []) : String.join l ≠ "" := by
  intro h0
  have hflat : (l.map String.data).flatten = [] := by
    rw [← string_join_data, h0]
  exact hne ((List.flatten_eq_nil_iff.mp hflat) _ (List.mem_map_of_mem _ hs))

theorem escTitle_isInfix_renderEntryLi (e : readingListEntry) :
    (escapeString e.Title).data <:+: (renderEntryLi e).data := by
  by_cases h : escapeString e.Title = ""
  · rw [h]
    exact List.nil_infix
  refine ⟨("<li>" ++ "<details>" ++ "<summary>" ++ "<a href=\"" ++ e.URL ++
      "\" rel=\"noopener\"" ++ "" ++ ">").data,
    ("</a>" ++ escapeString (" - " ++ formatDate e.Date) ++ "</summary>" ++
      "<div class=\"description\">" ++ ("<div>" ++ escapeString "Description:" ++
      "<i>" ++ escapeString (if e.Description ≠ "" then e.Description else "<none>") ++
      "</i>" ++ "</div>") ++
      (if e.Image ≠ "" then
        "<div>" ++ escapeString "Image:" ++ "<br/>" ++ "<img loading=\"lazy\" src=\"" ++
          e.Image ++ "\" style=\"max-width: 256px;\"/>" ++ "</div>"
       else "") ++
      "</div>" ++ "</details>" ++ "</li>").data, ?_⟩
  simp only [renderEntryLi, renderAnchor, if_neg h, Bool.false_eq_true, if_false,
    String.data_append, List.append_assoc]

theorem escTitle_isInfix_renderGroup {g : entryGroup} {x : readingListEntry}
    (hx : x ∈ g.Entries) :
    (escapeString x.Title).data <:+: (renderGroup g).data := by
  have h1 : (renderEntryLi x).data ∈ (g.Entries.map renderEntryLi).map String.data :=
    List.mem_map_of_mem _ (List.mem_map_of_mem _ hx)
  have h2 := (escTitle_isInfix_renderEntryLi x).trans (isInfix_flatten_of_mem h1)
  have hne : String.join (g.Entries.map renderEntryLi) ≠ "" :=
    string_join_ne_empty_of_mem (List.mem_map_of_mem _ hx)
      (renderEntryLi_data_ne_nil x)
  simp only [renderGroup]
  rw [if_neg hne]
  simp only [String.data_append, string_join_data]
  exact isInfix_append_of_right _ (isInfix_append_of_left _ (isInfix_append_of_right _ h2))

theorem escTitle_isInfix_makeListHTML {groups : List entryGroup}
    {g : entryGroup} {x : readingListEntry} (hg : g ∈ groups)
    (hx : x ∈ g.Entries) :
    (escapeString x.Title).data <:+: (makeListHTML groups).data := by
  have h1 : (renderGroup g).data ∈ (groups.map renderGroup).map String.data :=
    List.mem_map_of_mem _ (List.mem_map_of_mem _ hg)
  have h2 := (escTitle_isInfix_renderGroup hx).trans (isInfix_flatten_of_mem h1)
  have hne : String.join (groups.map renderGroup) ≠ "" :=
    string_join_ne_empty_of_mem (List.mem_map_of_mem _ hg)
      (renderGroup_data_ne_nil g)
  simp only [makeListHTML]
  rw [if_neg hne]
  simp only [String.data_append, string_join_data]
  exact isInfix_append_of_left _ (isInfix_append_of_right _ h2)

/-- Claim C5: in the rendered output of `makeListHTML` over the grouped
records, title and description text is HTML-escaped: provided no URL
field smuggles a `<` into an attribute position, no occurrence of `<sc`
(the start of any `<script…>` tag) exists anywhere in the output,
whatever the titles and descriptions are — and a record whose title is
`<script>` contributes the escaped text `&lt;script&gt;` to the
output. -/
theorem makeListHTML_escapes_title (entries : List readingListEntry)
    (h : ∀ x ∈ entries, '<' ∉ x.URL.data ∧ '<' ∉ x.Image.data) :
    ¬ scPat <:+: (makeListHTML (groupEntriesByMonth entries)).data ∧
    ∀ x ∈ entries, x.Title = "<script>" →
      "&lt;script&gt;".data <:+: (makeListHTML (groupEntriesByMonth entries)).data := by
  constructor
  · have hsafe := safeL_makeListHTML (groupEntriesByMonth entries)
      (fun g hg x hx => h x (mem_of_mem_groupEntriesByMonth hg hx))
    exact hsafe.1
  · intro x hx htitle
    rcases exists_group_of_mem hx with ⟨g, hg, hxg⟩
    have hinf := escTitle_isInfix_makeListHTML hg hxg
    rw [htitle] at hinf
    exact hinf

/-- Witness for claim C5 at the concrete one-record input whose title is
`<script>`. -/
theorem makeListHTML_escapes_title_witness :
    ¬ scPat <:+: (makeListHTML (groupEntriesByMonth [entryScript])).data ∧
    "&lt;script&gt;".data <:+: (makeListHTML (groupEntriesByMonth [entryScript])).data := by
  have h := makeListHTML_escapes_title [entryScript] (by decide)
  exact ⟨h.1, h.2 entryScript (by decide) rfl⟩
